/-
Verification of the memory-request lifecycle engine of a GPU core model
(CudaCore, gem5-gpu).  The C++ source is shallowly embedded: each method
becomes a Lean function over an explicit state record; fatal paths
(panic / failed assert) become Except.error; channel accept/reject
decisions are passed in as boolean oracles.
-/
import Mathlib

namespace CudaCore

/-! ## Address-Line Translator

`inline Addr CudaCore::addrToLine(Addr a)` computes
`a & (((uint64_t)-1) << maskBits)` where `maskBits` is the memory
system's block-size in bits.  Addresses are 64-bit unsigned integers,
modeled as `Nat` with explicit reduction mod `2 ^ 64`. -/

/-- `a & (((uint64_t)-1) << maskBits)`: `(uint64_t)-1` is `2 ^ 64 - 1`
and the shift wraps at 64 bits. -/
def addrToLine (maskBits : Nat) (a : Nat) : Nat :=
  a &&& (((2 ^ 64 - 1) <<< maskBits) % 2 ^ 64)

theorem testBit_addrToLine (k : Nat) (a : Nat) (i : Nat) :
    (addrToLine k a).testBit i =
      (a.testBit i && (decide (k ≤ i) && decide (i < 64))) := by
  simp only [addrToLine, Nat.testBit_and, Nat.testBit_mod_two_pow,
    Nat.testBit_shiftLeft, Nat.testBit_two_pow_sub_one, ge_iff_le]
  by_cases hk : k ≤ i
  · by_cases hi : i < 64
    · have hik : i - k < 64 := by omega
      simp [hk, hi, hik]
    · simp [hi]
  · simp [hk]

theorem addrToLine_eq_div_mul (k : Nat) (hk : k < 64) (a : Nat)
    (ha : a < 2 ^ 64) : addrToLine k a = 2 ^ k * (a / 2 ^ k) := by
  apply Nat.eq_of_testBit_eq
  intro i
  rw [testBit_addrToLine]
  rw [Nat.testBit_mul_pow_two]
  by_cases hi : i < 64
  · by_cases hki : k ≤ i
    · have hdiv : (a / 2 ^ k).testBit (i - k) = a.testBit i := by
        rw [← Nat.shiftRight_eq_div_pow, Nat.testBit_shiftRight]
        congr 1
        omega
      simp [hki, hi, hdiv, ge_iff_le]
    · simp [hki, ge_iff_le]
  · have h64 : (2 : Nat) ^ 64 ≤ 2 ^ i := Nat.pow_le_pow_right (by omega) (by omega)
    have hbit : a.testBit i = false := Nat.testBit_lt_two_pow (by omega)
    have hdivlt : a / 2 ^ k < 2 ^ (i - k) := by
      apply Nat.div_lt_of_lt_mul
      calc a < 2 ^ 64 := ha
        _ ≤ 2 ^ k * 2 ^ (i - k) := by
            rw [← pow_add]
            exact Nat.pow_le_pow_right (by omega) (by omega)
    have hbit2 : (a / 2 ^ k).testBit (i - k) = false := Nat.testBit_lt_two_pow hdivlt
    simp [hbit, hbit2, hi]

theorem addrToLine_idem (k : Nat) (a : Nat) :
    addrToLine k (addrToLine k a) = addrToLine k a := by
  apply Nat.eq_of_testBit_eq
  intro i
  rw [testBit_addrToLine, testBit_addrToLine]
  cases a.testBit i <;> cases decide (k ≤ i) <;> cases decide (i < 64) <;> rfl

/-- C4 counterexample: with a 64-byte block size (6 mask bits),
address 0x1040 maps to line 0x1040, not to line 0x1000 as the claim
states (0x1040 is the first address of the next 64-byte block after
0x1000..0x103F). -/
theorem addrToLine_cex :
    addrToLine 6 0x1040 = 0x1040 ∧ addrToLine 6 0x1040 ≠ 0x1000 := by
  decide

/-- C4 (amended): `addrToLine` clears exactly the bits below the
block-size boundary (bit `i` of the result is bit `i` of the input for
`maskBits ≤ i < 64` and zero otherwise, i.e. the result is
`2 ^ maskBits * (a / 2 ^ maskBits)`); it is pure and total; two 64-bit
addresses map to the same line iff their masked values (block indices)
are equal; with a 64-byte block size (6 mask bits), address 0x1005
maps to line 0x1000 while address 0x1040 maps to the distinct line
0x1040. -/
theorem addrToLine_spec (k : Nat) (hk : k < 64) :
    (∀ a i, (addrToLine k a).testBit i =
        (a.testBit i && (decide (k ≤ i) && decide (i < 64)))) ∧
    (∀ a, a < 2 ^ 64 → addrToLine k a = 2 ^ k * (a / 2 ^ k)) ∧
    (∀ a b, a < 2 ^ 64 → b < 2 ^ 64 →
        (addrToLine k a = addrToLine k b ↔ a / 2 ^ k = b / 2 ^ k)) ∧
    (addrToLine 6 0x1005 = 0x1000 ∧ addrToLine 6 0x1040 = 0x1040) := by
  refine ⟨fun a i => testBit_addrToLine k a i, fun a ha => addrToLine_eq_div_mul k hk a ha,
    fun a b ha hb => ?_, by decide, by decide⟩
  rw [addrToLine_eq_div_mul k hk a ha, addrToLine_eq_div_mul k hk b hb]
  constructor
  · intro h
    exact Nat.eq_of_mul_eq_mul_left (Nat.pos_pow_of_pos k (by omega)) h
  · intro h
    rw [h]

/-- Witness for C4 at the spec scenario: block size 64 bytes
(6 mask bits), concrete addresses from the scenario. -/
theorem addrToLine_spec_witness :
    addrToLine 6 0x1005 = 2 ^ 6 * (0x1005 / 2 ^ 6) ∧
    (addrToLine 6 0x1005 = addrToLine 6 0x1040 ↔ 0x1005 / 2 ^ 6 = 0x1040 / 2 ^ 6) :=
  ⟨(addrToLine_spec 6 (by decide)).2.1 0x1005 (by decide),
   (addrToLine_spec 6 (by decide)).2.2.1 0x1005 0x1040 (by decide) (by decide)⟩

/-! ## Outstanding-Fetch Tracker

`std::map<Addr, mem_fetch*> busyInstCacheLineAddrs` maps a cache-line
address to the in-flight fetch that caused it.  The map is embedded as
an association list; the std::map at-most-one-entry-per-key discipline
is the Nodup invariant on the key column, proved preserved below. -/

structure FetchTracker where
  busyInstCacheLineAddrs : List (Nat × Nat)
deriving DecidableEq

def emptyTracker : FetchTracker := ⟨[]⟩

/-- `CudaCore::instCacheResourceAvailable`: true iff no fetch is
outstanding for the line of `addr`. -/
def instCacheResourceAvailable (k : Nat) (st : FetchTracker) (addr : Nat) : Bool :=
  (st.busyInstCacheLineAddrs.lookup (addrToLine k addr)).isNone

/-- `CudaCore::icacheFetch`: `assert(instCacheResourceAvailable(addr))`,
then registers `busyInstCacheLineAddrs[addrToLine(req->getVaddr())] = mf`
where the request vaddr was itself set to `addrToLine(addr)` (hence the
double application, as in the source).  `none` models the failed
assert. -/
def icacheFetch (k : Nat) (addr mf : Nat) (st : FetchTracker) : Option FetchTracker :=
  if instCacheResourceAvailable k st addr then
    some ⟨(addrToLine k (addrToLine k addr), mf) :: st.busyInstCacheLineAddrs⟩
  else none

/-- `CudaCore::recvInstResp`: looks up the entry for the response line;
`assert(iter != busyInstCacheLineAddrs.end())` makes a missing entry
fatal (`none`); otherwise the stored handle is forwarded to
`accept_fetch_response` and exactly that map entry is erased. -/
def recvInstResp (k : Nat) (vaddr : Nat) (st : FetchTracker) : Option (Nat × FetchTracker) :=
  match st.busyInstCacheLineAddrs.lookup (addrToLine k vaddr) with
  | none => none
  | some mf =>
      some (mf, ⟨st.busyInstCacheLineAddrs.eraseP (fun p => p.1 == addrToLine k vaddr)⟩)

inductive FetchOp where
  | fetch (addr mf : Nat)
  | resp (vaddr : Nat)
deriving DecidableEq

def runFetchOps (k : Nat) : List FetchOp → FetchTracker → Option FetchTracker
  | [], st => some st
  | FetchOp.fetch a m :: ops, st => (icacheFetch k a m st).bind (runFetchOps k ops)
  | FetchOp.resp v :: ops, st =>
      (recvInstResp k v st).bind (fun r => runFetchOps k ops r.2)

theorem lookup_eq_none_iff (a : Nat) (l : List (Nat × Nat)) :
    l.lookup a = none ↔ a ∉ l.map Prod.fst := by
  induction l with
  | nil => simp [List.lookup]
  | cons p l ih =>
      obtain ⟨b, v⟩ := p
      by_cases hab : a = b
      · subst hab
        simp [List.lookup]
      · have hbeq : (a == b) = false := by simp [hab]
        simp only [List.lookup, hbeq, List.map_cons, List.mem_cons]
        rw [ih]
        simp [hab]

theorem lookup_eraseP_ne (line a : Nat) (h : a ≠ line) (l : List (Nat × Nat)) :
    (l.eraseP (fun p => p.1 == line)).lookup a = l.lookup a := by
  induction l with
  | nil => rfl
  | cons p l ih =>
      obtain ⟨b, v⟩ := p
      by_cases hb : b = line
      · subst hb
        have habq : (a == b) = false := by simp [h]
        simp [List.eraseP_cons, List.lookup, habq]
      · have hbline : ((b, v).1 == line) = false := by simp [hb]
        simp only [List.eraseP_cons, hbline, cond_false, List.lookup, ih]

theorem lookup_eraseP_self (line : Nat) (l : List (Nat × Nat))
    (hnd : (l.map Prod.fst).Nodup) :
    (l.eraseP (fun p => p.1 == line)).lookup line = none := by
  induction l with
  | nil => rfl
  | cons p l ih =>
      obtain ⟨b, v⟩ := p
      simp only [List.map_cons, List.nodup_cons] at hnd
      by_cases hb : b = line
      · subst hb
        simp only [List.eraseP_cons, beq_self_eq_true, cond_true]
        exact (lookup_eq_none_iff b l).2 hnd.1
      · have hbline : ((b, v).1 == line) = false := by simp [hb]
        have hlineb : (line == b) = false := by simp [Ne.symm hb]
        simp only [List.eraseP_cons, hbline, cond_false, List.lookup, hlineb,
          ih hnd.2]

theorem nodup_eraseP (line : Nat) (l : List (Nat × Nat))
    (hnd : (l.map Prod.fst).Nodup) :
    ((l.eraseP (fun p => p.1 == line)).map Prod.fst).Nodup :=
  ((l.eraseP_sublist (p := fun p => p.1 == line)).map Prod.fst).nodup hnd

theorem runFetchOps_nodup (k : Nat) (ops : List FetchOp) :
    ∀ st st', (st.busyInstCacheLineAddrs.map Prod.fst).Nodup →
      runFetchOps k ops st = some st' →
      (st'.busyInstCacheLineAddrs.map Prod.fst).Nodup := by
  induction ops with
  | nil =>
      intro st st' hnd h
      cases h
      exact hnd
  | cons op ops ih =>
      intro st st' hnd h
      cases op with
      | fetch a m =>
          unfold runFetchOps at h
          unfold icacheFetch at h
          by_cases hav : instCacheResourceAvailable k st a = true
          · rw [if_pos hav, Option.some_bind] at h
            refine ih _ _ ?_ h
            simp only [List.map_cons, List.nodup_cons]
            refine ⟨?_, hnd⟩
            rw [addrToLine_idem]
            unfold instCacheResourceAvailable at hav
            exact (lookup_eq_none_iff _ _).1 (Option.isNone_iff_eq_none.1 hav)
          · rw [if_neg hav, Option.none_bind] at h
            cases h
      | resp v =>
          unfold runFetchOps at h
          unfold recvInstResp at h
          cases hl : st.busyInstCacheLineAddrs.lookup (addrToLine k v) with
          | none =>
              rw [hl] at h
              cases h
          | some mf =>
              rw [hl] at h
              rw [Option.some_bind] at h
              exact ih _ _ (nodup_eraseP _ _ hnd) h

/-- C2: at most one fetch is outstanding per cache line: icacheFetch
fatally asserts that no fetch is outstanding for the line before
registering its line-to-handle entry; recvInstResp fatally fails iff no
outstanding entry exists for the response line, and otherwise returns
the stored handle (forwarded to the functional model) and removes
exactly that entry; every tracker state reachable by a sequence of
fetch operations from the empty tracker has at most one entry per
line. -/
theorem fetchTracker_onePerLine (k : Nat) :
    (∀ st addr mf, icacheFetch k addr mf st = none ↔
        instCacheResourceAvailable k st addr = false) ∧
    (∀ st addr mf st', icacheFetch k addr mf st = some st' →
        instCacheResourceAvailable k st addr = true ∧
        st'.busyInstCacheLineAddrs =
          (addrToLine k addr, mf) :: st.busyInstCacheLineAddrs) ∧
    (∀ st vaddr, recvInstResp k vaddr st = none ↔
        st.busyInstCacheLineAddrs.lookup (addrToLine k vaddr) = none) ∧
    (∀ st vaddr mf st', (st.busyInstCacheLineAddrs.map Prod.fst).Nodup →
        recvInstResp k vaddr st = some (mf, st') →
        st.busyInstCacheLineAddrs.lookup (addrToLine k vaddr) = some mf ∧
        st'.busyInstCacheLineAddrs.lookup (addrToLine k vaddr) = none ∧
        (∀ l, l ≠ addrToLine k vaddr →
            st'.busyInstCacheLineAddrs.lookup l = st.busyInstCacheLineAddrs.lookup l)) ∧
    (∀ ops st', runFetchOps k ops emptyTracker = some st' →
        (st'.busyInstCacheLineAddrs.map Prod.fst).Nodup) := by
  refine ⟨?_, ?_, ?_, ?_, ?_⟩
  · intro st addr mf
    unfold icacheFetch
    by_cases hav : instCacheResourceAvailable k st addr = true
    · simp [hav]
    · simp [hav]
  · intro st addr mf st' h
    unfold icacheFetch at h
    by_cases hav : instCacheResourceAvailable k st addr = true
    · rw [if_pos hav] at h
      cases h
      exact ⟨hav, by rw [addrToLine_idem]⟩
    · rw [if_neg hav] at h
      cases h
  · intro st vaddr
    unfold recvInstResp
    cases hl : st.busyInstCacheLineAddrs.lookup (addrToLine k vaddr) <;> simp
  · intro st vaddr mf st' hnd h
    unfold recvInstResp at h
    cases hl : st.busyInstCacheLineAddrs.lookup (addrToLine k vaddr) with
    | none =>
        rw [hl] at h
        cases h
    | some mf0 =>
        rw [hl, Option.some.injEq, Prod.mk.injEq] at h
        obtain ⟨h1, h2⟩ := h
        subst h1
        subst h2
        exact ⟨rfl, lookup_eraseP_self _ _ hnd,
          fun l hne => lookup_eraseP_ne _ _ hne _⟩
  · intro ops st' h
    exact runFetchOps_nodup k ops emptyTracker st' (by simp [emptyTracker]) h

/-- Witness for C2: a fetch to 0x1005 followed by a fetch to a
different line and a response consuming the first line, with the
entry-removal facts instantiated concretely (6 mask bits, 64-byte
blocks). -/
theorem fetchTracker_onePerLine_witness :
    (FetchTracker.mk [(0x1000, 7), (0x2000, 9)]).busyInstCacheLineAddrs.lookup
        (addrToLine 6 0x1005) = some 7 ∧
    (FetchTracker.mk [(0x2000, 9)]).busyInstCacheLineAddrs.lookup
        (addrToLine 6 0x1005) = none ∧
    ((FetchTracker.mk [(0x2000, 9)]).busyInstCacheLineAddrs.lookup 0x2000 =
      (FetchTracker.mk [(0x1000, 7), (0x2000, 9)]).busyInstCacheLineAddrs.lookup 0x2000) := by
  have h := (fetchTracker_onePerLine 6).2.2.2.1
    (FetchTracker.mk [(0x1000, 7), (0x2000, 9)]) 0x1005 7
    (FetchTracker.mk [(0x2000, 9)]) (by decide) (by decide)
  exact ⟨h.1, h.2.1, h.2.2 0x2000 (by decide)⟩
/-! ## Fetch Dispatcher & Retry Queue

State of `CudaCore` relevant to `sendInstAccess` / `handleRetry`:
the stall flag, the `std::list<PacketPtr> retryInstPkts` (packets are
opaque ids), and the two counters.  The instruction channel's
accept/reject decision for each `sendTimingReq` is an oracle boolean
passed to the operation. -/

structure FetchPortState where
  stallOnICacheRetry : Bool
  retryInstPkts : List Nat
  numInstCacheRequests : Nat
  numInstCacheRetry : Nat
deriving DecidableEq

def initFetchPortState : FetchPortState := ⟨false, [], 0, 0⟩

structure SendResult where
  st : FetchPortState
  emptyHeadRead : Bool
deriving DecidableEq

/-- `CudaCore::sendInstAccess`.  `assert(!stallOnICacheRetry)` is the
error path.  On rejection the code evaluates the guard
`pkt != retryInstPkts.front()` before possibly enqueuing; calling
`front()` on an empty `std::list` is undefined behavior in C++, so the
model records in `emptyHeadRead` whether the guard read the head of an
empty queue, and renders the de-facto outcome of that read (an
indeterminate head that compares unequal to `pkt`) as an enqueue.
`numInstCacheRequests++` is executed on both the accept and the reject
path, as in the source. -/
def sendInstAccess (accept : Bool) (pkt : Nat) (st : FetchPortState) :
    Except Unit SendResult :=
  if st.stallOnICacheRetry then Except.error ()
  else if accept then
    Except.ok ⟨{ st with numInstCacheRequests := st.numInstCacheRequests + 1 }, false⟩
  else
    let enq : Bool :=
      match st.retryInstPkts.head? with
      | some h => pkt != h
      | none => true
    Except.ok ⟨{ st with
        stallOnICacheRetry := true,
        retryInstPkts := if enq then st.retryInstPkts ++ [pkt] else st.retryInstPkts,
        numInstCacheRequests := st.numInstCacheRequests + 1 },
      st.retryInstPkts.isEmpty⟩

structure RetryResult where
  st : FetchPortState
  popped : Nat
  eagerSent : Option Nat
deriving DecidableEq

/-- Packets presented to the instruction channel during one
`handleRetry` invocation, in order. -/
def RetryResult.sentPkts (r : RetryResult) : List Nat :=
  r.popped :: r.eagerSent.toList

/-- `CudaCore::handleRetry`.  Asserts the stalled flag and a non-empty
retry list, bumps `numInstCacheRetry`, resends the front packet
(rejection of this resend is the fatal
`panic("Access should never fail on a retry!")`), removes it via
`std::list::remove` (which erases every element equal to it), updates
the stall flag from the remaining size, and if still stalled eagerly
sends the new front, discarding that send's return value
(`accept2`). -/
def handleRetry (accept1 accept2 : Bool) (st : FetchPortState) :
    Except Unit RetryResult :=
  if st.stallOnICacheRetry = false then Except.error ()
  else
    match st.retryInstPkts with
    | [] => Except.error ()
    | retryPkt :: rest =>
        if accept1 then
          let remaining := (retryPkt :: rest).filter (fun p => p != retryPkt)
          let st2 : FetchPortState :=
            { st with
              numInstCacheRetry := st.numInstCacheRetry + 1,
              retryInstPkts := remaining,
              stallOnICacheRetry := !remaining.isEmpty }
          Except.ok ⟨st2, retryPkt, remaining.head?⟩
        else Except.error ()

inductive PortOp where
  | send (accept : Bool) (pkt : Nat)
  | chanReady (accept1 accept2 : Bool)
deriving DecidableEq

def runPortOps : List PortOp → FetchPortState → Except Unit FetchPortState
  | [], st => Except.ok st
  | PortOp.send a p :: ops, st =>
      (sendInstAccess a p st).bind (fun r => runPortOps ops r.st)
  | PortOp.chanReady a1 a2 :: ops, st =>
      (handleRetry a1 a2 st).bind (fun r => runPortOps ops r.st)

/-- Iterated channel-ready invocations with an always-accepting
channel; returns the final state and the packets popped (accepted and
removed from the retry queue), in order. -/
def drainRetries : Nat → FetchPortState → Except Unit (FetchPortState × List Nat)
  | 0, st => Except.ok (st, [])
  | fuel + 1, st =>
      if st.stallOnICacheRetry then
        (handleRetry true true st).bind fun r =>
          (drainRetries fuel r.st).map fun p => (p.1, r.popped :: p.2)
      else Except.ok (st, [])

theorem bind_ok {α β : Type} (a : α) (f : α → Except Unit β) :
    (Except.ok a : Except Unit α).bind f = f a := rfl

theorem bind_error {α β : Type} (f : α → Except Unit β) :
    (Except.error () : Except Unit α).bind f = Except.error () := rfl

theorem map_ok {α β : Type} (a : α) (f : α → β) :
    (Except.ok a : Except Unit α).map f = Except.ok (f a) := rfl

theorem not_isEmpty_iff (l : List Nat) : (!l.isEmpty) = true ↔ l ≠ [] := by
  cases l <;> simp

theorem filter_bne_of_not_mem (a : Nat) (l : List Nat) (h : a ∉ l) :
    l.filter (fun p => p != a) = l := by
  apply List.filter_eq_self.2
  intro b hb
  have hne : b ≠ a := fun hba => h (hba ▸ hb)
  simpa using hne

theorem sendInstAccess_stalled (accept : Bool) (pkt : Nat) (st : FetchPortState)
    (h : st.stallOnICacheRetry = true) :
    sendInstAccess accept pkt st = Except.error () := by
  unfold sendInstAccess
  rw [if_pos h]

theorem sendInstAccess_accept (pkt : Nat) (st : FetchPortState)
    (h : st.stallOnICacheRetry = false) :
    sendInstAccess true pkt st =
      Except.ok ⟨{ st with numInstCacheRequests := st.numInstCacheRequests + 1 },
        false⟩ := by
  unfold sendInstAccess
  rw [if_neg (by simp [h])]
  rfl

theorem sendInstAccess_reject (pkt : Nat) (st : FetchPortState)
    (h : st.stallOnICacheRetry = false) :
    sendInstAccess false pkt st =
      Except.ok ⟨{ st with
          stallOnICacheRetry := true,
          retryInstPkts :=
            if (match st.retryInstPkts.head? with
                | some hd => pkt != hd
                | none => true) then st.retryInstPkts ++ [pkt]
            else st.retryInstPkts,
          numInstCacheRequests := st.numInstCacheRequests + 1 },
        st.retryInstPkts.isEmpty⟩ := by
  unfold sendInstAccess
  rw [if_neg (by simp [h])]
  rfl

theorem handleRetry_notStalled (acc1 acc2 : Bool) (st : FetchPortState)
    (h : st.stallOnICacheRetry = false) :
    handleRetry acc1 acc2 st = Except.error () := by
  unfold handleRetry
  rw [if_pos h]

theorem handleRetry_emptyQueue (acc1 acc2 : Bool) (st : FetchPortState)
    (hstall : st.stallOnICacheRetry = true) (hq : st.retryInstPkts = []) :
    handleRetry acc1 acc2 st = Except.error () := by
  unfold handleRetry
  rw [if_neg (by simp [hstall]), hq]

theorem handleRetry_rejected (acc2 : Bool) (st : FetchPortState) (a : Nat)
    (rest : List Nat) (hstall : st.stallOnICacheRetry = true)
    (hq : st.retryInstPkts = a :: rest) :
    handleRetry false acc2 st = Except.error () := by
  unfold handleRetry
  rw [if_neg (by simp [hstall]), hq]
  rfl

theorem handleRetry_accepted (acc2 : Bool) (st : FetchPortState) (a : Nat)
    (rest : List Nat) (hstall : st.stallOnICacheRetry = true)
    (hq : st.retryInstPkts = a :: rest) :
    handleRetry true acc2 st =
      Except.ok ⟨{ st with
          numInstCacheRetry := st.numInstCacheRetry + 1,
          retryInstPkts := (a :: rest).filter (fun p => p != a),
          stallOnICacheRetry := !((a :: rest).filter (fun p => p != a)).isEmpty },
        a, ((a :: rest).filter (fun p => p != a)).head?⟩ := by
  unfold handleRetry
  rw [if_neg (by simp [hstall]), hq]
  rfl

theorem handleRetry_ok (a : Nat) (rest : List Nat) (st : FetchPortState) (acc2 : Bool)
    (hstall : st.stallOnICacheRetry = true) (hq : st.retryInstPkts = a :: rest)
    (hmem : a ∉ rest) :
    handleRetry true acc2 st =
      Except.ok ⟨⟨!rest.isEmpty, rest, st.numInstCacheRequests,
          st.numInstCacheRetry + 1⟩, a, rest.head?⟩ := by
  have hfilter : (a :: rest).filter (fun p => p != a) = rest := by
    rw [List.filter_cons_of_neg]
    · exact filter_bne_of_not_mem a rest hmem
    · simp
  rw [handleRetry_accepted acc2 st a rest hstall hq, hfilter]

theorem drainRetries_succ (fuel : Nat) (st : FetchPortState)
    (hstall : st.stallOnICacheRetry = true) (r : RetryResult)
    (hr : handleRetry true true st = Except.ok r) (st' : FetchPortState)
    (pops : List Nat) (hd : drainRetries fuel r.st = Except.ok (st', pops)) :
    drainRetries (fuel + 1) st = Except.ok (st', r.popped :: pops) := by
  unfold drainRetries
  rw [if_pos hstall, hr]
  simp only [bind_ok]
  rw [hd]
  rfl

theorem drainRetries_fifo : ∀ (q : List Nat) (nr nt : Nat), q.Nodup → q ≠ [] →
    drainRetries q.length ⟨true, q, nr, nt⟩ =
      Except.ok (⟨false, [], nr, nt + q.length⟩, q) := by
  intro q
  induction q with
  | nil => intro nr nt _ hne; exact absurd rfl hne
  | cons a rest ih =>
      intro nr nt hnd _
      have hnda : a ∉ rest := (List.nodup_cons.1 hnd).1
      have hstep := handleRetry_ok a rest ⟨true, a :: rest, nr, nt⟩ true rfl rfl hnda
      have hd : drainRetries rest.length
          (⟨!rest.isEmpty, rest, nr, nt + 1⟩ : FetchPortState) =
          Except.ok ((⟨false, [], nr, nt + 1 + rest.length⟩ : FetchPortState), rest) := by
        cases rest with
        | nil => simp [drainRetries]
        | cons b tl =>
            have hih := ih nr (nt + 1) (List.nodup_cons.1 hnd).2 (by simp)
            simpa using hih
      have hres := drainRetries_succ rest.length ⟨true, a :: rest, nr, nt⟩ rfl
        _ hstep _ _ hd
      have harith : nt + 1 + rest.length = nt + (a :: rest).length := by
        simp only [List.length_cons]
        omega
      rw [harith] at hres
      simpa using hres

/-- C3: with requests A, B, C rejected in that order (so queued FIFO)
and the channel accepting all sends thereafter, the replay driven by
handleRetry hands the queued requests to the channel in exactly the
order A, B, C (each invocation pops and successfully resends the
current head, so the accepted order over the drain equals the queue
order); a rejected resend of the popped queue head is the fatal panic;
and numInstCacheRetry is incremented exactly once per invocation (so
the drain of n queued packets adds exactly n). -/
theorem handleRetry_fifoReplay :
    (∀ (q : List Nat) (nr nt : Nat), q.Nodup → q ≠ [] →
        drainRetries q.length ⟨true, q, nr, nt⟩ =
          Except.ok (⟨false, [], nr, nt + q.length⟩, q)) ∧
    (∀ acc2 st, st.stallOnICacheRetry = true → st.retryInstPkts ≠ [] →
        handleRetry false acc2 st = Except.error ()) ∧
    (∀ acc1 acc2 st r, handleRetry acc1 acc2 st = Except.ok r →
        r.st.numInstCacheRetry = st.numInstCacheRetry + 1) := by
  refine ⟨drainRetries_fifo, ?_, ?_⟩
  · intro acc2 st hstall hne
    cases hq : st.retryInstPkts with
    | nil => exact absurd hq hne
    | cons a rest => exact handleRetry_rejected acc2 st a rest hstall hq
  · intro acc1 acc2 st r h
    by_cases hstall : st.stallOnICacheRetry = false
    · rw [handleRetry_notStalled acc1 acc2 st hstall] at h
      cases h
    · have hstall' : st.stallOnICacheRetry = true := by
        revert hstall
        cases st.stallOnICacheRetry <;> simp
      cases hq : st.retryInstPkts with
      | nil =>
          rw [handleRetry_emptyQueue acc1 acc2 st hstall' hq] at h
          cases h
      | cons a rest =>
          cases acc1 with
          | false =>
              rw [handleRetry_rejected acc2 st a rest hstall' hq] at h
              cases h
          | true =>
              rw [handleRetry_accepted acc2 st a rest hstall' hq,
                Except.ok.injEq] at h
              subst h
              rfl

/-- Witness for C3: queue [10, 20, 30] (A, B, C), channel accepting;
the drain pops exactly [10, 20, 30] and bumps the retry counter by
three; a rejecting channel on the head resend is fatal. -/
theorem handleRetry_fifoReplay_witness :
    drainRetries 3 ⟨true, [10, 20, 30], 5, 0⟩ =
      Except.ok (⟨false, [], 5, 3⟩, [10, 20, 30]) ∧
    handleRetry false true ⟨true, [10, 20, 30], 5, 0⟩ = Except.error () := by
  constructor
  · have h := handleRetry_fifoReplay.1 [10, 20, 30] 5 0 (by decide) (by decide)
    simpa using h
  · exact handleRetry_fifoReplay.2.1 true ⟨true, [10, 20, 30], 5, 0⟩ rfl (by decide)

/-- C9: when the popped head is successfully resent and the queue is
still non-empty, the eager-drain send of the new head leaves the
RetryQueue and the stalled flag unchanged regardless of the channel's
answer to that send (the source discards it): the new head stays at the
front of the queue, is listed as presented this invocation, and the
next invocation pops (presents) that same packet a second time. -/
theorem handleRetry_eagerDrain :
    ∀ (a b : Nat) (rest : List Nat) (nr nt : Nat) (acc2 acc2' : Bool),
      a ∉ b :: rest → b ∉ rest →
      (handleRetry true acc2 ⟨true, a :: b :: rest, nr, nt⟩ =
          Except.ok ⟨⟨true, b :: rest, nr, nt + 1⟩, a, some b⟩) ∧
      (RetryResult.sentPkts ⟨⟨true, b :: rest, nr, nt + 1⟩, a, some b⟩ = [a, b]) ∧
      ((handleRetry true acc2' ⟨true, b :: rest, nr, nt + 1⟩).map RetryResult.popped =
          Except.ok b) := by
  intro a b rest nr nt acc2 acc2' hab hb
  refine ⟨?_, rfl, ?_⟩
  · have h := handleRetry_ok a (b :: rest) ⟨true, a :: b :: rest, nr, nt⟩ acc2 rfl rfl hab
    simpa using h
  · have h := handleRetry_ok b rest ⟨true, b :: rest, nr, nt + 1⟩ acc2' rfl rfl hb
    rw [h]
    rfl

/-- Witness for C9: head 1 popped, new head 2 presented eagerly and
still at the front, presented again by the next invocation. -/
theorem handleRetry_eagerDrain_witness :
    handleRetry true false ⟨true, [1, 2], 0, 0⟩ =
      Except.ok ⟨⟨true, [2], 0, 1⟩, 1, some 2⟩ ∧
    (handleRetry true true ⟨true, [2], 0, 1⟩).map RetryResult.popped = Except.ok 2 :=
  ⟨(handleRetry_eagerDrain 1 2 [] 0 0 false true (by decide) (by decide)).1,
   (handleRetry_eagerDrain 1 2 [] 0 0 false true (by decide) (by decide)).2.2⟩

/-- C7 (code defect): on the rejection path `sendInstAccess` evaluates
the guard `pkt != retryInstPkts.front()`; in every state reachable
through the entry assertion the RetryQueue is empty at that point
(stalled-iff-non-empty-queue is an invariant of the reachable states,
and the entry assert requires not-stalled), so the guard reads the
front of an empty `std::list` — undefined behavior in C++ rather than
a well-defined comparison.  Concretely, rejecting the first packet
from the initial state reads the empty head (and, under the de-facto
unequal result, enqueues the packet and stalls). -/
theorem sendInstAccess_emptyFront :
    (sendInstAccess false 5 initFetchPortState =
        Except.ok ⟨⟨true, [5], 1, 0⟩, true⟩) ∧
    (∀ ops st, runPortOps ops initFetchPortState = Except.ok st →
        (st.stallOnICacheRetry = true ↔ st.retryInstPkts ≠ [])) ∧
    (∀ pkt st r, st.retryInstPkts = [] →
        sendInstAccess false pkt st = Except.ok r →
        r.emptyHeadRead = true ∧ r.st.retryInstPkts = [pkt] ∧
        r.st.stallOnICacheRetry = true) := by
  refine ⟨rfl, ?_, ?_⟩
  · intro ops st h
    suffices hgen : ∀ (ops : List PortOp) (s s' : FetchPortState),
        (s.stallOnICacheRetry = true ↔ s.retryInstPkts ≠ []) →
        runPortOps ops s = Except.ok s' →
        (s'.stallOnICacheRetry = true ↔ s'.retryInstPkts ≠ []) by
      exact hgen ops initFetchPortState st (by simp [initFetchPortState]) h
    intro ops
    induction ops with
    | nil =>
        intro s s' hinv h
        cases h
        exact hinv
    | cons op ops ih =>
        intro s s' hinv h
        cases op with
        | send a p =>
            by_cases hstall : s.stallOnICacheRetry = true
            · rw [show runPortOps (PortOp.send a p :: ops) s =
                    (sendInstAccess a p s).bind (fun r => runPortOps ops r.st) from rfl,
                sendInstAccess_stalled a p s hstall, bind_error] at h
              cases h
            · have hstall' : s.stallOnICacheRetry = false := by
                revert hstall
                cases s.stallOnICacheRetry <;> simp
              have hq : s.retryInstPkts = [] := by
                by_contra hne
                rw [hinv.2 hne] at hstall'
                cases hstall'
              cases a with
              | true =>
                  rw [show runPortOps (PortOp.send true p :: ops) s =
                        (sendInstAccess true p s).bind (fun r => runPortOps ops r.st) from rfl,
                    sendInstAccess_accept p s hstall', bind_ok] at h
                  refine ih _ _ ?_ h
                  simpa [hq] using hinv
              | false =>
                  rw [show runPortOps (PortOp.send false p :: ops) s =
                        (sendInstAccess false p s).bind (fun r => runPortOps ops r.st) from rfl,
                    sendInstAccess_reject p s hstall', bind_ok] at h
                  refine ih _ _ ?_ h
                  simp [hq]
        | chanReady a1 a2 =>
            by_cases hstall : s.stallOnICacheRetry = false
            · rw [show runPortOps (PortOp.chanReady a1 a2 :: ops) s =
                    (handleRetry a1 a2 s).bind (fun r => runPortOps ops r.st) from rfl,
                handleRetry_notStalled a1 a2 s hstall, bind_error] at h
              cases h
            · have hstall' : s.stallOnICacheRetry = true := by
                revert hstall
                cases s.stallOnICacheRetry <;> simp
              cases hq : s.retryInstPkts with
              | nil =>
                  rw [show runPortOps (PortOp.chanReady a1 a2 :: ops) s =
                        (handleRetry a1 a2 s).bind (fun r => runPortOps ops r.st) from rfl,
                    handleRetry_emptyQueue a1 a2 s hstall' hq, bind_error] at h
                  cases h
              | cons q rest =>
                  cases a1 with
                  | false =>
                      rw [show runPortOps (PortOp.chanReady false a2 :: ops) s =
                            (handleRetry false a2 s).bind (fun r => runPortOps ops r.st) from rfl,
                        handleRetry_rejected a2 s q rest hstall' hq, bind_error] at h
                      cases h
                  | true =>
                      rw [show runPortOps (PortOp.chanReady true a2 :: ops) s =
                            (handleRetry true a2 s).bind (fun r => runPortOps ops r.st) from rfl,
                        handleRetry_accepted a2 s q rest hstall' hq, bind_ok] at h
                      exact ih _ _ (not_isEmpty_iff _) h
  · intro pkt st r hq h
    by_cases hstall : st.stallOnICacheRetry = true
    · rw [sendInstAccess_stalled false pkt st hstall] at h
      cases h
    · have hstall' : st.stallOnICacheRetry = false := by
        revert hstall
        cases st.stallOnICacheRetry <;> simp
      rw [sendInstAccess_reject pkt st hstall', Except.ok.injEq] at h
      subst h
      simp [hq]

/-- Witness for C7's theorem: the concrete empty-queue rejection. -/
theorem sendInstAccess_emptyFront_witness :
    SendResult.emptyHeadRead ⟨⟨true, [5], 1, 0⟩, true⟩ = true ∧
    FetchPortState.retryInstPkts ⟨true, [5], 1, 0⟩ = [5] := by
  have h := sendInstAccess_emptyFront.2.2 5 initFetchPortState
    ⟨⟨true, [5], 1, 0⟩, true⟩ rfl sendInstAccess_emptyFront.1
  exact ⟨h.1, h.2.1⟩

/-- C8 counterexample: a rejected send does increment the
requests-sent counter — `numInstCacheRequests++` sits outside the
accept branch.  From the initial state, one rejected send leaves the
counter at 1, not 0. -/
theorem sendInstAccess_increment_cex :
    (sendInstAccess false 7 initFetchPortState).map
      (fun r => r.st.numInstCacheRequests) = Except.ok 1 := rfl

/-- C8 (amended): `sendInstAccess` increments `numInstCacheRequests`
on every call that passes the not-stalled assertion, whether the
channel accepts or rejects; on acceptance the dispatcher stays
unstalled with the RetryQueue untouched. -/
theorem sendInstAccess_increment :
    (∀ accept pkt st r, sendInstAccess accept pkt st = Except.ok r →
        r.st.numInstCacheRequests = st.numInstCacheRequests + 1) ∧
    (∀ pkt st r, sendInstAccess true pkt st = Except.ok r →
        r.st.stallOnICacheRetry = false ∧
        r.st.retryInstPkts = st.retryInstPkts ∧
        r.st.numInstCacheRetry = st.numInstCacheRetry) ∧
    (∀ accept pkt st, st.stallOnICacheRetry = true →
        sendInstAccess accept pkt st = Except.error ()) := by
  refine ⟨?_, ?_, ?_⟩
  · intro accept pkt st r h
    by_cases hstall : st.stallOnICacheRetry = true
    · rw [sendInstAccess_stalled accept pkt st hstall] at h
      cases h
    · have hstall' : st.stallOnICacheRetry = false := by
        revert hstall
        cases st.stallOnICacheRetry <;> simp
      cases accept with
      | true =>
          rw [sendInstAccess_accept pkt st hstall', Except.ok.injEq] at h
          subst h
          rfl
      | false =>
          rw [sendInstAccess_reject pkt st hstall', Except.ok.injEq] at h
          subst h
          rfl
  · intro pkt st r h
    by_cases hstall : st.stallOnICacheRetry = true
    · rw [sendInstAccess_stalled true pkt st hstall] at h
      cases h
    · have hstall' : st.stallOnICacheRetry = false := by
        revert hstall
        cases st.stallOnICacheRetry <;> simp
      rw [sendInstAccess_accept pkt st hstall', Except.ok.injEq] at h
      subst h
      exact ⟨hstall', rfl, rfl⟩
  · exact sendInstAccess_stalled

/-- Witness for C8's amended theorem: one accepted send from the
initial state increments the counter and stays unstalled. -/
theorem sendInstAccess_increment_witness :
    FetchPortState.numInstCacheRequests ⟨false, [], 1, 0⟩ = 0 + 1 ∧
    FetchPortState.stallOnICacheRetry ⟨false, [], 1, 0⟩ = false := by
  have h1 := sendInstAccess_increment.1 true 3 initFetchPortState ⟨⟨false, [], 1, 0⟩, false⟩ rfl
  have h2 := sendInstAccess_increment.2.1 3 initFetchPortState ⟨⟨false, [], 1, 0⟩, false⟩ rfl
  exact ⟨h1, h2.1⟩

/-! ## Lane-Parallel Memory-Op Dispatcher

`CudaCore::executeMemOp(const warp_inst_t&)`.  The warp instruction is
embedded by the fields the method reads: memory space, validity, the
per-lane active mask, `data_size`, `vectorLength` and whether it is a
load or a store.  Each lane's dedicated channel decision is the
`accepts` oracle.  The result carries the stall flag together with the
lanes attempted (request built and presented to the channel) and the
lanes sent (request accepted, in flight), in increasing order; fatal
paths (failed asserts, unsupported instruction kind, rejection after a
previously accepted lane) are `Except.error`.  A rejected lane's
partially built request is discarded (deleted) by the source; only the
traces model its observable effect. -/

inductive MemSpaceKind where
  | global_space
  | const_space
  | otherSpace
deriving DecidableEq

inductive MemInstKind where
  | load
  | store
  | otherKind
deriving DecidableEq

structure WarpInst where
  space : MemSpaceKind
  valid : Bool
  active : Nat → Bool
  dataSize : Nat
  vectorLength : Nat
  kind : MemInstKind

def execLanes (inst : WarpInst) (accepts : Nat → Bool) :
    List Nat → Bool → List Nat → List Nat → Except Unit (Bool × List Nat × List Nat)
  | [], _, att, sent => Except.ok (false, att.reverse, sent.reverse)
  | lane :: lanes, completed, att, sent =>
      if inst.active lane then
        if inst.dataSize < 1 ∨ 8 < inst.dataSize then Except.error ()
        else if 16 < inst.dataSize * inst.vectorLength then Except.error ()
        else if inst.kind = MemInstKind.otherKind then Except.error ()
        else if accepts lane then
          execLanes inst accepts lanes true (lane :: att) (lane :: sent)
        else if completed then Except.error ()
        else Except.ok (true, (lane :: att).reverse, sent.reverse)
      else execLanes inst accepts lanes completed att sent

def executeMemOp (warpSize : Nat) (inst : WarpInst) (accepts : Nat → Bool) :
    Except Unit (Bool × List Nat × List Nat) :=
  if ¬(inst.space = MemSpaceKind.global_space ∨ inst.space = MemSpaceKind.const_space) then
    Except.error ()
  else if inst.valid = false then Except.error ()
  else execLanes inst accepts (List.range warpSize) false [] []

theorem execLanes_allAccept (inst : WarpInst) (accepts : Nat → Bool)
    (hsz1 : 1 ≤ inst.dataSize) (hsz2 : inst.dataSize ≤ 8)
    (hsz3 : inst.dataSize * inst.vectorLength ≤ 16)
    (hkind : inst.kind ≠ MemInstKind.otherKind) :
    ∀ (lanes : List Nat) (completed : Bool) (att sent : List Nat),
      (∀ l ∈ lanes, inst.active l = true → accepts l = true) →
      execLanes inst accepts lanes completed att sent =
        Except.ok (false, att.reverse ++ lanes.filter inst.active,
          sent.reverse ++ lanes.filter inst.active) := by
  intro lanes
  induction lanes with
  | nil =>
      intro completed att sent _
      simp [execLanes]
  | cons lane lanes ih =>
      intro completed att sent h
      by_cases hact : inst.active lane = true
      · have hacc : accepts lane = true := h lane (List.mem_cons_self lane lanes) hact
        rw [execLanes, if_pos hact, if_neg (by omega), if_neg (by omega),
          if_neg hkind, if_pos hacc,
          ih true (lane :: att) (lane :: sent) (fun l hl ha => h l (List.mem_cons_of_mem lane hl) ha),
          List.filter_cons_of_pos hact]
        simp
      · have hact' : inst.active lane = false := by
          revert hact
          cases inst.active lane <;> simp
        rw [execLanes, if_neg (by simp [hact']),
          ih completed att sent (fun l hl ha => h l (List.mem_cons_of_mem lane hl) ha),
          List.filter_cons_of_neg (by simp [hact'])]

theorem execLanes_firstReject (inst : WarpInst) (accepts : Nat → Bool)
    (hsz1 : 1 ≤ inst.dataSize) (hsz2 : inst.dataSize ≤ 8)
    (hsz3 : inst.dataSize * inst.vectorLength ≤ 16)
    (hkind : inst.kind ≠ MemInstKind.otherKind) (j : Nat)
    (hactj : inst.active j = true) (hrejj : accepts j = false) :
    ∀ (L1 : List Nat) (L2 : List Nat) (completed : Bool) (att sent : List Nat),
      (∀ l ∈ L1, inst.active l = true → accepts l = true) →
      execLanes inst accepts (L1 ++ j :: L2) completed att sent =
        if completed || L1.any inst.active then Except.error ()
        else Except.ok (true, att.reverse ++ [j], sent.reverse) := by
  intro L1
  induction L1 with
  | nil =>
      intro L2 completed att sent _
      rw [List.nil_append, execLanes, if_pos hactj, if_neg (by omega),
        if_neg (by omega), if_neg hkind, if_neg (by simp [hrejj])]
      cases completed with
      | true => simp
      | false => simp
  | cons a L1 ih =>
      intro L2 completed att sent h
      by_cases hact : inst.active a = true
      · have hacc : accepts a = true := h a (List.mem_cons_self a L1) hact
        rw [List.cons_append, execLanes, if_pos hact, if_neg (by omega),
          if_neg (by omega), if_neg hkind, if_pos hacc,
          ih L2 true (a :: att) (a :: sent)
            (fun l hl ha => h l (List.mem_cons_of_mem a hl) ha)]
        simp [hact]
      · have hact' : inst.active a = false := by
          revert hact
          cases inst.active a <;> simp
        rw [List.cons_append, execLanes, if_neg (by simp [hact']),
          ih L2 completed att sent (fun l hl ha => h l (List.mem_cons_of_mem a hl) ha)]
        simp [hact']

theorem range_decomp (W j : Nat) (hj : j < W) :
    List.range W = List.range j ++ j ::
      (List.range (W - j - 1)).map (fun i => j + (i + 1)) := by
  obtain ⟨m, rfl⟩ : ∃ m, W = j + (m + 1) := ⟨W - j - 1, by omega⟩
  rw [show j + (m + 1) - j - 1 = m by omega, List.range_add, List.range_succ_eq_map,
    List.map_cons, List.map_map]
  rfl

/-- C1: executeMemOp attempts active lanes in increasing lane order;
if the channel for an active lane rejects while no earlier active lane
in the call succeeded (i.e. the first active lane is the rejected one),
the call returns stall=true having attempted only that lane and sent
none (no lane consumed, remaining lanes unattempted); a rejection
after any earlier active lane succeeded is the fatal panic; and a
stall=false return means every active lane below the warp size was
accepted and its request is in flight (sent list = all active lanes in
increasing order), while a stall=true return means no lane was sent. -/
theorem executeMemOp_failEarly (W : Nat) (inst : WarpInst) (accepts : Nat → Bool)
    (hspace : inst.space = MemSpaceKind.global_space ∨ inst.space = MemSpaceKind.const_space)
    (hvalid : inst.valid = true)
    (hsz1 : 1 ≤ inst.dataSize) (hsz2 : inst.dataSize ≤ 8)
    (hsz3 : inst.dataSize * inst.vectorLength ≤ 16)
    (hkind : inst.kind ≠ MemInstKind.otherKind) :
    ((∀ l, l < W → inst.active l = true → accepts l = true) →
        executeMemOp W inst accepts =
          Except.ok (false, (List.range W).filter inst.active,
            (List.range W).filter inst.active)) ∧
    (∀ j, j < W → inst.active j = true → accepts j = false →
        (∀ l, l < j → inst.active l = true → accepts l = true) →
        (((∀ l, l < j → inst.active l = false) →
            executeMemOp W inst accepts = Except.ok (true, [j], [])) ∧
         ((∃ i, i < j ∧ inst.active i = true) →
            executeMemOp W inst accepts = Except.error ()))) ∧
    (∀ stall att sent, executeMemOp W inst accepts = Except.ok (stall, att, sent) →
        (stall = false → sent = (List.range W).filter inst.active ∧
            (∀ l, l < W → inst.active l = true → accepts l = true)) ∧
        (stall = true → sent = [])) := by
  have hopen : ∀ r, executeMemOp W inst accepts = r ↔
      execLanes inst accepts (List.range W) false [] [] = r := by
    intro r
    unfold executeMemOp
    rw [if_neg (fun hc => hc hspace), if_neg (by simp [hvalid])]
  have hAll : (∀ l, l < W → inst.active l = true → accepts l = true) →
      executeMemOp W inst accepts =
        Except.ok (false, (List.range W).filter inst.active,
          (List.range W).filter inst.active) := by
    intro h
    rw [hopen]
    rw [execLanes_allAccept inst accepts hsz1 hsz2 hsz3 hkind (List.range W) false [] []
      (fun l hl ha => h l (List.mem_range.1 hl) ha)]
    simp
  have hRej : ∀ j, j < W → inst.active j = true → accepts j = false →
      (∀ l, l < j → inst.active l = true → accepts l = true) →
      (((∀ l, l < j → inst.active l = false) →
          executeMemOp W inst accepts = Except.ok (true, [j], [])) ∧
       ((∃ i, i < j ∧ inst.active i = true) →
          executeMemOp W inst accepts = Except.error ())) := by
    intro j hj hactj hrejj hfirst
    have hsplit := execLanes_firstReject inst accepts hsz1 hsz2 hsz3 hkind j hactj hrejj
      (List.range j) ((List.range (W - j - 1)).map (fun i => j + (i + 1))) false [] []
      (fun l hl ha => hfirst l (List.mem_range.1 hl) ha)
    rw [← range_decomp W j hj] at hsplit
    constructor
    · intro hnone
      have hany : (List.range j).any inst.active = false := by
        rw [List.any_eq_false]
        intro l hl
        simp [hnone l (List.mem_range.1 hl)]
      rw [hopen, hsplit, hany]
      simp
    · intro hex
      obtain ⟨i, hi, hacti⟩ := hex
      have hany : (List.range j).any inst.active = true := by
        rw [List.any_eq_true]
        exact ⟨i, List.mem_range.2 hi, hacti⟩
      rw [hopen, hsplit, hany]
      simp
  refine ⟨hAll, hRej, ?_⟩
  intro stall att sent h
  by_cases hex : ∃ j, j < W ∧ inst.active j = true ∧ accepts j = false
  · obtain ⟨hj0W, hact0, hrej0⟩ := Nat.find_spec hex
    set j0 := Nat.find hex with hj0def
    have hfirst : ∀ l, l < j0 → inst.active l = true → accepts l = true := by
      intro l hl ha
      by_contra hna
      exact Nat.find_min hex hl ⟨lt_trans hl hj0W, ha, by
        revert hna
        cases accepts l <;> simp⟩
    have hcase := hRej j0 hj0W hact0 hrej0 hfirst
    by_cases hexi : ∃ i, i < j0 ∧ inst.active i = true
    · rw [hcase.2 hexi] at h
      cases h
    · have hnone : ∀ l, l < j0 → inst.active l = false := by
        intro l hl
        by_contra hna
        exact hexi ⟨l, hl, by
          revert hna
          cases inst.active l <;> simp⟩
      rw [hcase.1 hnone, Except.ok.injEq, Prod.mk.injEq] at h
      obtain ⟨hs, h2⟩ := h
      rw [Prod.mk.injEq] at h2
      subst hs
      constructor
      · intro hfalse
        cases hfalse
      · intro _
        exact h2.2.symm
  · have hall : ∀ l, l < W → inst.active l = true → accepts l = true := by
      intro l hl ha
      by_contra hna
      exact hex ⟨l, hl, ha, by
        revert hna
        cases accepts l <;> simp⟩
    rw [hAll hall, Except.ok.injEq, Prod.mk.injEq] at h
    obtain ⟨hs, h2⟩ := h
    rw [Prod.mk.injEq] at h2
    subst hs
    constructor
    · intro _
      exact ⟨h2.2.symm, hall⟩
    · intro htrue
      cases htrue

/-- Witness for C1: warp size 6, active lanes {0,2,5}; with an
all-accepting channel every active lane is sent in increasing order;
with lane 2's channel rejecting after lane 0 accepted, the dispatch is
the fatal panic. -/
theorem executeMemOp_failEarly_witness :
    executeMemOp 6
        ⟨MemSpaceKind.global_space, true, fun l => l == 0 || l == 2 || l == 5, 4, 2,
          MemInstKind.load⟩ (fun _ => true) =
      Except.ok (false, [0, 2, 5], [0, 2, 5]) ∧
    executeMemOp 6
        ⟨MemSpaceKind.global_space, true, fun l => l == 0 || l == 2 || l == 5, 4, 2,
          MemInstKind.load⟩ (fun l => l != 2) = Except.error () := by
  constructor
  · have h := (executeMemOp_failEarly 6
      ⟨MemSpaceKind.global_space, true, fun l => l == 0 || l == 2 || l == 5, 4, 2,
        MemInstKind.load⟩ (fun _ => true) (Or.inl rfl) rfl (by decide) (by decide)
      (by decide) (by decide)).1 (by decide)
    rw [h]
    rfl
  · exact ((executeMemOp_failEarly 6
      ⟨MemSpaceKind.global_space, true, fun l => l == 0 || l == 2 || l == 5, 4, 2,
        MemInstKind.load⟩ (fun l => l != 2) (Or.inl rfl) rfl (by decide) (by decide)
      (by decide) (by decide)).2.1 2 (by decide) (by decide) (by decide)
      (by decide)).2 ⟨0, by decide, by decide⟩

/-! ## Write-back Gate

`int writebackBlocked` (-1 when unblocked) is embedded as
`Option Nat`.  `recvLSQDataResp` is parametrized by the functional
model's `ldst_unit_wb_inst` answer (`wbAccepted`, false meaning the
write-back register is occupied) and the packet facts its asserts
read; it returns (consumed, packetReleased, state).  `writebackClear`
returns the lane signaled to retry (if any) and the reset state. -/

structure WritebackState where
  writebackBlocked : Option Nat
deriving DecidableEq

def initWritebackState : WritebackState := ⟨none⟩

/-- `CudaCore::recvLSQDataResp`. -/
def recvLSQDataResp (wbAccepted : Bool) (laneId : Nat) (pktIsRead : Bool)
    (pktSize : Nat) (instValid : Bool) (st : WritebackState) :
    Except Unit (Bool × Bool × WritebackState) :=
  if pktIsRead = false then Except.error ()
  else if instValid = false then Except.error ()
  else if wbAccepted = false then
    match st.writebackBlocked with
    | some _ => Except.error ()
    | none => Except.ok (false, false, ⟨some laneId⟩)
  else if 16 < pktSize then Except.error ()
  else Except.ok (true, true, st)

/-- `CudaCore::writebackClear`: retry the blocked lane's channel if
any, then reset to unblocked unconditionally. -/
def writebackClear (st : WritebackState) : Option Nat × WritebackState :=
  (st.writebackBlocked, ⟨none⟩)

/-- C5: a lane is recorded as blocked (response returned not-consumed
and not released) only when the gate is currently unblocked; a busy
write-back while another lane is blocked is the fatal assert; a
consumed response (write-back accepted, size within the 16-byte
buffer) leaves the gate unchanged and releases the packet;
writebackClear signals a retry exactly to the blocked lane if one is
blocked, resets the gate to unblocked regardless, and when no lane is
blocked signals nobody and leaves the state equal to the unblocked
state (no-op apart from the reset). -/
theorem writebackGate_spec :
    (∀ laneId pktSize st out, recvLSQDataResp false laneId true pktSize true st =
          Except.ok out →
        st.writebackBlocked = none ∧
        out = (false, false, ⟨some laneId⟩)) ∧
    (∀ laneId pktSize st l, st.writebackBlocked = some l →
        recvLSQDataResp false laneId true pktSize true st = Except.error ()) ∧
    (∀ laneId pktSize st, pktSize ≤ 16 →
        recvLSQDataResp true laneId true pktSize true st =
          Except.ok (true, true, st)) ∧
    (∀ st, (writebackClear st).1 = st.writebackBlocked ∧
        (writebackClear st).2 = ⟨none⟩) ∧
    (∀ st, st.writebackBlocked = none →
        writebackClear st = (none, st)) := by
  refine ⟨?_, ?_, ?_, ?_, ?_⟩
  · intro laneId pktSize st out h
    unfold recvLSQDataResp at h
    cases hb : st.writebackBlocked with
    | some l =>
        rw [if_neg (by simp), if_neg (by simp), if_pos rfl, hb] at h
        cases h
    | none =>
        rw [if_neg (by simp), if_neg (by simp), if_pos rfl, hb,
          Except.ok.injEq] at h
        exact ⟨rfl, h.symm⟩
  · intro laneId pktSize st l hb
    unfold recvLSQDataResp
    rw [if_neg (by simp), if_neg (by simp), if_pos rfl, hb]
  · intro laneId pktSize st hsz
    unfold recvLSQDataResp
    rw [if_neg (by simp), if_neg (by simp), if_neg (by simp),
      if_neg (by omega)]
  · intro st
    exact ⟨rfl, rfl⟩
  · intro st hb
    unfold writebackClear
    rw [hb]
    cases st with
    | mk b =>
        cases hb
        rfl

/-- Witness for C5: lane 2's response blocks the free gate; clearing
signals lane 2 and resets; a busy signal with lane 1 blocked is
fatal. -/
theorem writebackGate_spec_witness :
    WritebackState.writebackBlocked ⟨none⟩ = none ∧
    recvLSQDataResp false 0 true 4 true ⟨some 1⟩ = Except.error () ∧
    recvLSQDataResp true 2 true 8 true ⟨some 1⟩ = Except.ok (true, true, ⟨some 1⟩) ∧
    writebackClear ⟨none⟩ = (none, ⟨none⟩) := by
  refine ⟨?_, ?_, ?_, ?_⟩
  · exact (writebackGate_spec.1 2 4 ⟨none⟩ (false, false, ⟨some 2⟩) rfl).1
  · exact writebackGate_spec.2.1 0 4 ⟨some 1⟩ 1 rfl
  · exact writebackGate_spec.2.2.1 2 8 ⟨some 1⟩ (by decide)
  · exact writebackGate_spec.2.2.2.2 ⟨none⟩ rfl

/-! ## Control-Channel Flush / Kernel-Finish Protocol

State read and written by `finishKernel`, `flush` and
`recvLSQControlResp`: the `signalKernelFinish` flag, the completed
kernel counter, plus two event counters observing the interface with
the outside: flush requests accepted by the control channel and
`finish_kernel()` signals delivered to the functional model.  `flush`
takes the channel's accept decision (rejection is the fatal
`panic("Flush requests should never fail")`). -/

structure KernelState where
  signalKernelFinish : Bool
  numKernelsCompleted : Nat
  flushesSent : Nat
  kernelFinishSignals : Nat
deriving DecidableEq

def initKernelState : KernelState := ⟨false, 0, 0, 0⟩

/-- `CudaCore::flush`. -/
def flush (accepted : Bool) (st : KernelState) : Except Unit KernelState :=
  if accepted then Except.ok { st with flushesSent := st.flushesSent + 1 }
  else Except.error ()

/-- `CudaCore::finishKernel`: counter++, set the flag, then flush. -/
def finishKernel (accepted : Bool) (st : KernelState) : Except Unit KernelState :=
  flush accepted { st with
    numKernelsCompleted := st.numKernelsCompleted + 1,
    signalKernelFinish := true }

/-- `CudaCore::recvLSQControlResp`: a flush response signals
`finish_kernel()` iff the flag is set (and clears it); any non-flush
packet on the control port is fatal. -/
def recvLSQControlResp (isFlush : Bool) (st : KernelState) : Except Unit KernelState :=
  if isFlush then
    if st.signalKernelFinish then
      Except.ok { st with
        kernelFinishSignals := st.kernelFinishSignals + 1,
        signalKernelFinish := false }
    else Except.ok st
  else Except.error ()

inductive KernelOp where
  | finish (accepted : Bool)
  | ctrlResp (isFlush : Bool)
deriving DecidableEq

def runKernelOps : List KernelOp → KernelState → Except Unit KernelState
  | [], st => Except.ok st
  | KernelOp.finish a :: ops, st => (finishKernel a st).bind (runKernelOps ops)
  | KernelOp.ctrlResp f :: ops, st => (recvLSQControlResp f st).bind (runKernelOps ops)

/-- C6 counterexample: finishKernel issues a flush unconditionally, so
calling it twice before any flush response double-flushes: two flush
requests go out, where the claim allows only one. -/
theorem finishKernel_doubleFlush_cex :
    (finishKernel true initKernelState).bind (finishKernel true) =
      Except.ok ⟨true, 2, 2, 0⟩ ∧ (2 : Nat) ≠ 1 := by
  exact ⟨rfl, by decide⟩

/-- C6 (amended): finishKernel increments the completed-kernel
counter, sets the kernel-finishing flag, and issues its own flush
request on every call (so two calls before a response send two
flushes); the functional model's kernel completion is signaled only
when a flush response arrives while the flag is set — never by
finishKernel itself, and never by any run containing no control-port
response — and the flag is cleared when the signal is delivered, so
two finishKernel calls followed by the two flush responses deliver
exactly one completion signal (no double-signal). -/
theorem finishKernel_flushSignal :
    (∀ accepted st st', finishKernel accepted st = Except.ok st' →
        st'.numKernelsCompleted = st.numKernelsCompleted + 1 ∧
        st'.signalKernelFinish = true ∧
        st'.flushesSent = st.flushesSent + 1 ∧
        st'.kernelFinishSignals = st.kernelFinishSignals) ∧
    (∀ ops st st', (∀ op ∈ ops, ∃ a, op = KernelOp.finish a) →
        runKernelOps ops st = Except.ok st' →
        st'.kernelFinishSignals = st.kernelFinishSignals) ∧
    (∀ st, (st.signalKernelFinish = true →
        recvLSQControlResp true st =
          Except.ok { st with
            kernelFinishSignals := st.kernelFinishSignals + 1,
            signalKernelFinish := false }) ∧
      (st.signalKernelFinish = false →
        recvLSQControlResp true st = Except.ok st)) ∧
    (runKernelOps [KernelOp.finish true, KernelOp.finish true,
        KernelOp.ctrlResp true, KernelOp.ctrlResp true] initKernelState =
      Except.ok ⟨false, 2, 2, 1⟩) := by
  have hfin : ∀ accepted st st', finishKernel accepted st = Except.ok st' →
      st'.numKernelsCompleted = st.numKernelsCompleted + 1 ∧
      st'.signalKernelFinish = true ∧
      st'.flushesSent = st.flushesSent + 1 ∧
      st'.kernelFinishSignals = st.kernelFinishSignals := by
    intro accepted st st' h
    unfold finishKernel flush at h
    cases accepted with
    | false =>
        rw [if_neg (by simp)] at h
        cases h
    | true =>
        rw [if_pos rfl, Except.ok.injEq] at h
        subst h
        exact ⟨rfl, rfl, rfl, rfl⟩
  refine ⟨hfin, ?_, ?_, ?_⟩
  · intro ops
    induction ops with
    | nil =>
        intro st st' _ h
        cases h
        rfl
    | cons op ops ih =>
        intro st st' hops h
        obtain ⟨a, rfl⟩ := hops op (List.mem_cons_self op ops)
        cases hstep : finishKernel a st with
        | error e =>
            rw [show runKernelOps (KernelOp.finish a :: ops) st =
                  (finishKernel a st).bind (runKernelOps ops) from rfl,
              hstep] at h
            cases h
        | ok s1 =>
            rw [show runKernelOps (KernelOp.finish a :: ops) st =
                  (finishKernel a st).bind (runKernelOps ops) from rfl,
              hstep, bind_ok] at h
            rw [ih s1 st' (fun o ho => hops o (List.mem_cons_of_mem _ ho)) h]
            exact (hfin a st s1 hstep).2.2.2
  · intro st
    constructor
    · intro hflag
      unfold recvLSQControlResp
      rw [if_pos rfl, if_pos hflag]
    · intro hflag
      unfold recvLSQControlResp
      rw [if_pos rfl, if_neg (by simp [hflag])]
  · rfl

/-- Witness for C6's amended theorem: one accepted finishKernel from
the initial state, and a no-response run keeping signals at zero. -/
theorem finishKernel_flushSignal_witness :
    KernelState.numKernelsCompleted ⟨true, 1, 1, 0⟩ = 0 + 1 ∧
    KernelState.kernelFinishSignals ⟨true, 2, 2, 0⟩ = 0 := by
  constructor
  · exact (finishKernel_flushSignal.1 true initKernelState ⟨true, 1, 1, 0⟩ rfl).1
  · exact finishKernel_flushSignal.2.1
      [KernelOp.finish true, KernelOp.finish true] initKernelState ⟨true, 2, 2, 0⟩
      (by intro op hop; fin_cases hop <;> exact ⟨true, rfl⟩) rfl

/-! ## Lane and Control Port Retry Callbacks

`CudaCore::LSQPort::recvRetry` and
`CudaCore::LSQControlPort::recvRetry` are both a bare panic; only the
instruction port's retry callback is implemented, forwarding to
`CudaCore::handleRetry`. -/

def LSQPort.recvRetry (idx : Nat) : Except Unit Unit := Except.error ()

def LSQControlPort.recvRetry : Except Unit Unit := Except.error ()

def InstPort.recvRetry (accept1 accept2 : Bool) (st : FetchPortState) :
    Except Unit RetryResult :=
  handleRetry accept1 accept2 st

/-- C10: a retry-ready signal arriving on any data lane channel or on
the control channel is the fatal panic, for every lane index; the
instruction channel's callback is the one that forwards to the
implemented retry handler. -/
theorem lsqRecvRetry_fatal :
    (∀ idx, LSQPort.recvRetry idx = Except.error ()) ∧
    LSQControlPort.recvRetry = Except.error () ∧
    (∀ acc1 acc2 st, InstPort.recvRetry acc1 acc2 st = handleRetry acc1 acc2 st) :=
  ⟨fun _ => rfl, rfl, fun _ _ _ => rfl⟩
